import Mathlib

/-!
Shallow embedding of `find_music_files.py` (repository `multimd/find_music_files`).

The script scans a root directory: it classifies files by the lower-cased
`pathlib.Path.suffix`, counts matches per top-level subfolder and per
extension, and prints two report tables.  The embedding below translates the
data model and the control flow of `count_music_files` and `main` into pure
Lean functions over an explicit directory-tree type.
-/

namespace FindMusicFiles

/-- The fixed extension catalog, line for line from the source
(`MUSIC_EXTENSIONS` in `find_music_files.py`, lines 9-16).  Python stores it
as a set; the list order below is the order of the literals in the source and
is used only for membership tests and for pre-populating the extension map. -/
def MUSIC_EXTENSIONS : List String :=
  [".mp3", ".aac", ".wav", ".flac", ".m4a",
   ".oga", ".ape", ".dsf", ".dff", ".aiff", ".aif",
   ".ogg"]

/-- The same catalog as written out in the specification text (section 6,
"Fixed extension catalog"), kept separate so the code catalog can be compared
against the spec's words. -/
def specCatalog : List String :=
  [".mp3", ".aac", ".wav", ".flac", ".m4a", ".oga", ".ape", ".dsf", ".dff",
   ".aiff", ".aif", ".ogg"]

/-- A directory-tree entry: a plain file or a directory with children.
Models what `os.scandir` / `os.walk` traverse. -/
inductive FSEntry where
  | file (name : String)
  | dir (name : String) (children : List FSEntry)

def FSEntry.name : FSEntry → String
  | .file n => n
  | .dir n _ => n

def FSEntry.isDir : FSEntry → Bool
  | .file _ => false
  | .dir _ _ => true

def FSEntry.isFile : FSEntry → Bool
  | .file _ => true
  | .dir _ _ => false

/-- Index of the last `'.'` in a character list (Python `str.rfind`),
`none` when there is no dot. -/
def lastDotPos : List Char → Option Nat
  | [] => none
  | c :: cs =>
    match lastDotPos cs with
    | some i => some (i + 1)
    | none => if c = '.' then some 0 else none

/-- `pathlib.Path.suffix` of a file name: the substring starting at the last
dot, except when that dot is the first character or the last character of the
name, in which case the suffix is empty (CPython: `0 < i < len(name) - 1`). -/
def pySuffix (name : String) : String :=
  let cs := name.toList
  match lastDotPos cs with
  | none => ""
  | some i => if 0 < i ∧ i < cs.length - 1 then String.mk (cs.drop i) else ""

/-- Python `str.lower`: lower-case every character. -/
def strLower (s : String) : String := String.mk (s.toList.map Char.toLower)

/-- Extension used for classification: `Path(file).suffix.lower()`
(lines 44 and 70 of the source). -/
def fileExt (name : String) : String := strLower (pySuffix name)

/-- `file_ext in MUSIC_EXTENSIONS` (lines 45 and 71). -/
def isMusic (name : String) : Bool := decide (fileExt name ∈ MUSIC_EXTENSIONS)

/-- Association-list dictionaries (Python dict / defaultdict(int)). -/
def keys (m : List (String × Nat)) : List String := m.map Prod.fst

def valsSum (m : List (String × Nat)) : Nat := (m.map Prod.snd).sum

/-- `defaultdict(int)` increment: `m[k] += 1` adds the key with value 1 when
absent, otherwise bumps the stored value. -/
def dincr : List (String × Nat) → String → List (String × Nat)
  | [], k => [(k, 1)]
  | (k2, v) :: rest, k =>
    if k2 = k then (k2, v + 1) :: rest else (k2, v) :: dincr rest k

/-- Dictionary assignment `m[k] = v`: overwrite when present, append when
absent. -/
def dset : List (String × Nat) → String → Nat → List (String × Nat)
  | [], k, v => [(k, v)]
  | (k2, v2) :: rest, k, v =>
    if k2 = k then (k2, v) :: rest else (k2, v2) :: dset rest k v

/-- Lines 30-31: every supported extension pre-populated with zero. -/
def initExtCounts : List (String × Nat) := MUSIC_EXTENSIONS.map (fun e => (e, 0))

/-- Names of the plain-file children of a directory, in child order
(the `f.is_file()` filter of the flat branch, and the `files` component
`os.walk` yields for one directory). -/
def directFileNames (cs : List FSEntry) : List String :=
  cs.filterMap (fun e => match e with | .file n => some n | .dir _ _ => none)

mutual

/-- File names produced by `os.walk` below one entry: nothing for a plain
file (files are reported by their parent), and for a directory first its own
files, then the walk of its children, top-down in child order. -/
def walkEntry : FSEntry → List String
  | .file _ => []
  | .dir _ cs => directFileNames cs ++ walkList cs

def walkList : List FSEntry → List String
  | [] => []
  | e :: es => walkEntry e ++ walkList es

end

/-- `os.walk` of a directory whose children are `cs`: the directory's own
files first, then every deeper directory's files, top-down. -/
def walkFrom (cs : List FSEntry) : List String := directFileNames cs ++ walkList cs

/-- Number of matching files in a name list. -/
def musicCount (fs : List String) : Nat := (fs.filter isMusic).length

/-- Loop body of the per-subdirectory walk (lines 69-74): state is
`(subdir_count, total_count, extension_counts)`. -/
def processFile (acc : Nat × Nat × List (String × Nat)) (name : String) :
    Nat × Nat × List (String × Nat) :=
  if isMusic name then (acc.1 + 1, acc.2.1 + 1, dincr acc.2.2 (fileExt name))
  else acc

/-- Loop body of the flat-root branch (lines 42-47): state is
`(count, extension_counts)`. -/
def flatStep (acc : Nat × List (String × Nat)) (name : String) :
    Nat × List (String × Nat) :=
  if isMusic name then (acc.1 + 1, dincr acc.2 (fileExt name)) else acc

/-- Mutable state of the subdirectory loop of `count_music_files`. -/
structure ScanState where
  total : Nat
  cumulative : Nat
  folderCounts : List (String × Nat)
  extCounts : List (String × Nat)

def initState : ScanState := ⟨0, 0, [], initExtCounts⟩

/-- One iteration of the `for subdir in top_subdirs` loop (lines 62-89):
walk the subdirectory, fold the per-file updates, then record the
subdirectory's count and add it to the running cumulative total. -/
def processSubdir (st : ScanState) (e : FSEntry) : ScanState :=
  match e with
  | .file _ => st
  | .dir name cs =>
    let r := (walkFrom cs).foldl processFile (0, st.total, st.extCounts)
    { total := r.2.1
      cumulative := st.cumulative + r.1
      folderCounts := dset st.folderCounts name r.1
      extCounts := r.2.2 }

/-- `[d for d in os.scandir(root_path) if d.is_dir()]` (line 38). -/
def topSubdirs (cs : List FSEntry) : List FSEntry := cs.filter FSEntry.isDir

/-- `count_music_files` (lines 18-91), as a pure function of the root's
basename and the root's children.  Returns
`(music_files_count, total_count, extension_counts)`. -/
def count_music_files (rootName : String) (children : List FSEntry) :
    List (String × Nat) × Nat × List (String × Nat) :=
  let tops := topSubdirs children
  if tops.isEmpty then
    let r := (directFileNames children).foldl flatStep (0, initExtCounts)
    ([(rootName, r.1)], r.1, r.2)
  else
    let st := tops.foldl processSubdir initState
    (st.folderCounts, st.total, st.extCounts)

/-- Names of the directory children of a list of entries. -/
def dNames (cs : List FSEntry) : List String :=
  (cs.filter FSEntry.isDir).map FSEntry.name

theorem valsSum_nil : valsSum [] = 0 := rfl

theorem valsSum_cons (p : String × Nat) (m : List (String × Nat)) :
    valsSum (p :: m) = p.2 + valsSum m := by
  simp [valsSum]

theorem valsSum_append (m m2 : List (String × Nat)) :
    valsSum (m ++ m2) = valsSum m + valsSum m2 := by
  simp [valsSum]

theorem keys_cons (p : String × Nat) (m : List (String × Nat)) :
    keys (p :: m) = p.1 :: keys m := rfl

theorem valsSum_dincr : ∀ (m : List (String × Nat)) (k : String),
    valsSum (dincr m k) = valsSum m + 1
  | [], k => by simp [dincr, valsSum]
  | (k2, v) :: rest, k => by
    by_cases h : k2 = k
    · simp only [dincr, if_pos h, valsSum_cons]
      omega
    · simp only [dincr, if_neg h, valsSum_cons, valsSum_dincr rest k]
      omega

theorem keys_dincr : ∀ (m : List (String × Nat)) (k : String), k ∈ keys m →
    keys (dincr m k) = keys m
  | [], k, hm => by simp [keys] at hm
  | (k2, v) :: rest, k, hm => by
    by_cases h : k2 = k
    · simp [dincr, h, keys]
    · have hk : k ∈ keys rest := by
        rw [keys_cons] at hm
        rcases List.mem_cons.mp hm with h1 | h1
        · exact absurd h1.symm h
        · exact h1
      simp only [dincr, if_neg h, keys_cons, keys_dincr rest k hk]

theorem dset_of_not_mem : ∀ (m : List (String × Nat)) (k : String) (v : Nat),
    k ∉ keys m → dset m k v = m ++ [(k, v)]
  | [], k, v, _ => rfl
  | (k2, v2) :: rest, k, v, hm => by
    rw [keys_cons] at hm
    have h2 : ¬ k2 = k := fun h => hm (List.mem_cons.mpr (Or.inl h.symm))
    have hr : k ∉ keys rest := fun h => hm (List.mem_cons.mpr (Or.inr h))
    simp [dset, h2, dset_of_not_mem rest k v hr]

theorem keys_initExtCounts : keys initExtCounts = MUSIC_EXTENSIONS := rfl

theorem valsSum_initExtCounts : valsSum initExtCounts = 0 := rfl

theorem musicCount_nil : musicCount [] = 0 := rfl

theorem musicCount_cons (n : String) (fs : List String) :
    musicCount (n :: fs) = (if isMusic n then 1 else 0) + musicCount fs := by
  by_cases h : isMusic n
  · simp [musicCount, List.filter_cons, h]
    omega
  · simp [musicCount, List.filter_cons, h]

theorem foldl_flatStep : ∀ (fs : List String) (c0 : Nat) (e0 : List (String × Nat)),
    keys e0 = MUSIC_EXTENSIONS →
    (fs.foldl flatStep (c0, e0)).1 = c0 + musicCount fs ∧
    valsSum (fs.foldl flatStep (c0, e0)).2 = valsSum e0 + musicCount fs ∧
    keys (fs.foldl flatStep (c0, e0)).2 = MUSIC_EXTENSIONS
  | [], c0, e0, hk => by simp [musicCount, hk]
  | n :: rest, c0, e0, hk => by
    by_cases h : isMusic n
    · have hmem : fileExt n ∈ keys e0 := by
        rw [hk]
        exact of_decide_eq_true h
      have hkeys : keys (dincr e0 (fileExt n)) = MUSIC_EXTENSIONS := by
        rw [keys_dincr e0 (fileExt n) hmem, hk]
      obtain ⟨h1, h2, h3⟩ :=
        foldl_flatStep rest (c0 + 1) (dincr e0 (fileExt n)) hkeys
      refine ⟨?_, ?_, ?_⟩
      · simp only [List.foldl_cons, flatStep, if_pos h] at *
        rw [h1, musicCount_cons, if_pos h]
        omega
      · simp only [List.foldl_cons, flatStep, if_pos h] at *
        rw [h2, valsSum_dincr, musicCount_cons, if_pos h]
        omega
      · simpa only [List.foldl_cons, flatStep, if_pos h] using h3
    · obtain ⟨h1, h2, h3⟩ := foldl_flatStep rest c0 e0 hk
      refine ⟨?_, ?_, ?_⟩
      · simp only [List.foldl_cons, flatStep, if_neg h] at *
        rw [h1, musicCount_cons, if_neg h]
        omega
      · simp only [List.foldl_cons, flatStep, if_neg h] at *
        rw [h2, musicCount_cons, if_neg h]
        omega
      · simpa only [List.foldl_cons, flatStep, if_neg h] using h3

theorem foldl_processFile : ∀ (fs : List String) (s0 t0 : Nat)
    (e0 : List (String × Nat)), keys e0 = MUSIC_EXTENSIONS →
    (fs.foldl processFile (s0, t0, e0)).1 = s0 + musicCount fs ∧
    (fs.foldl processFile (s0, t0, e0)).2.1 = t0 + musicCount fs ∧
    valsSum (fs.foldl processFile (s0, t0, e0)).2.2 = valsSum e0 + musicCount fs ∧
    keys (fs.foldl processFile (s0, t0, e0)).2.2 = MUSIC_EXTENSIONS
  | [], s0, t0, e0, hk => by simp [musicCount, hk]
  | n :: rest, s0, t0, e0, hk => by
    by_cases h : isMusic n
    · have hmem : fileExt n ∈ keys e0 := by
        rw [hk]
        exact of_decide_eq_true h
      have hkeys : keys (dincr e0 (fileExt n)) = MUSIC_EXTENSIONS := by
        rw [keys_dincr e0 (fileExt n) hmem, hk]
      obtain ⟨h1, h2, h3, h4⟩ :=
        foldl_processFile rest (s0 + 1) (t0 + 1) (dincr e0 (fileExt n)) hkeys
      refine ⟨?_, ?_, ?_, ?_⟩
      · simp only [List.foldl_cons, processFile, if_pos h] at *
        rw [h1, musicCount_cons, if_pos h]
        omega
      · simp only [List.foldl_cons, processFile, if_pos h] at *
        rw [h2, musicCount_cons, if_pos h]
        omega
      · simp only [List.foldl_cons, processFile, if_pos h] at *
        rw [h3, valsSum_dincr, musicCount_cons, if_pos h]
        omega
      · simpa only [List.foldl_cons, processFile, if_pos h] using h4
    · obtain ⟨h1, h2, h3, h4⟩ := foldl_processFile rest s0 t0 e0 hk
      refine ⟨?_, ?_, ?_, ?_⟩
      · simp only [List.foldl_cons, processFile, if_neg h] at *
        rw [h1, musicCount_cons, if_neg h]
        omega
      · simp only [List.foldl_cons, processFile, if_neg h] at *
        rw [h2, musicCount_cons, if_neg h]
        omega
      · simp only [List.foldl_cons, processFile, if_neg h] at *
        rw [h3, musicCount_cons, if_neg h]
        omega
      · simpa only [List.foldl_cons, processFile, if_neg h] using h4

theorem keys_append (m m2 : List (String × Nat)) :
    keys (m ++ m2) = keys m ++ keys m2 := by
  simp [keys]

theorem dNames_nil : dNames [] = [] := rfl

theorem dNames_cons_file (n : String) (es : List FSEntry) :
    dNames (.file n :: es) = dNames es := by
  simp [dNames, FSEntry.isDir]

theorem dNames_cons_dir (n : String) (cs es : List FSEntry) :
    dNames (.dir n cs :: es) = n :: dNames es := by
  simp [dNames, FSEntry.isDir, FSEntry.name, List.filter_cons]

theorem dNames_topSubdirs (l : List FSEntry) : dNames (topSubdirs l) = dNames l := by
  simp [dNames, topSubdirs, List.filter_filter]

theorem foldl_processSubdir : ∀ (ds : List FSEntry) (st : ScanState),
    st.total = st.cumulative →
    valsSum st.folderCounts = st.cumulative →
    valsSum st.extCounts = st.total →
    keys st.extCounts = MUSIC_EXTENSIONS →
    (dNames ds).Nodup →
    (∀ x ∈ dNames ds, x ∉ keys st.folderCounts) →
    ((ds.foldl processSubdir st).total = (ds.foldl processSubdir st).cumulative ∧
     valsSum (ds.foldl processSubdir st).folderCounts =
       (ds.foldl processSubdir st).cumulative ∧
     valsSum (ds.foldl processSubdir st).extCounts =
       (ds.foldl processSubdir st).total ∧
     keys (ds.foldl processSubdir st).extCounts = MUSIC_EXTENSIONS ∧
     keys (ds.foldl processSubdir st).folderCounts =
       keys st.folderCounts ++ dNames ds)
  | [], st, h1, h2, h3, h4, _, _ => by
    simp [dNames_nil, h1, h2, h3, h4]
  | .file n :: es, st, h1, h2, h3, h4, hnd, hdisj => by
    rw [dNames_cons_file] at hnd hdisj
    have ih := foldl_processSubdir es st h1 h2 h3 h4 hnd hdisj
    simpa only [List.foldl_cons, processSubdir, dNames_cons_file] using ih
  | .dir name cs :: es, st, h1, h2, h3, h4, hnd, hdisj => by
    rw [dNames_cons_dir] at hnd hdisj
    obtain ⟨hw1, hw2, hw3, hw4⟩ :=
      foldl_processFile (walkFrom cs) 0 st.total st.extCounts h4
    have hname : name ∉ keys st.folderCounts :=
      hdisj name (List.mem_cons_self name _)
    have hfc : (processSubdir st (.dir name cs)).folderCounts =
        st.folderCounts ++
          [(name, ((walkFrom cs).foldl processFile (0, st.total, st.extCounts)).1)] :=
      dset_of_not_mem _ _ _ hname
    have g1 : (processSubdir st (.dir name cs)).total =
        (processSubdir st (.dir name cs)).cumulative := by
      show ((walkFrom cs).foldl processFile (0, st.total, st.extCounts)).2.1 =
        st.cumulative + ((walkFrom cs).foldl processFile (0, st.total, st.extCounts)).1
      rw [hw2, hw1, h1]
      omega
    have g2 : valsSum (processSubdir st (.dir name cs)).folderCounts =
        (processSubdir st (.dir name cs)).cumulative := by
      rw [hfc, valsSum_append]
      show valsSum st.folderCounts + _ =
        st.cumulative + ((walkFrom cs).foldl processFile (0, st.total, st.extCounts)).1
      rw [h2, valsSum_cons, valsSum_nil]
      omega
    have g3 : valsSum (processSubdir st (.dir name cs)).extCounts =
        (processSubdir st (.dir name cs)).total := by
      show valsSum ((walkFrom cs).foldl processFile (0, st.total, st.extCounts)).2.2 =
        ((walkFrom cs).foldl processFile (0, st.total, st.extCounts)).2.1
      rw [hw3, hw2, h3]
    have g4 : keys (processSubdir st (.dir name cs)).extCounts = MUSIC_EXTENSIONS :=
      hw4
    have g5 : keys (processSubdir st (.dir name cs)).folderCounts =
        keys st.folderCounts ++ [name] := by
      rw [hfc, keys_append]
      rfl
    have hnd2 : (dNames es).Nodup := hnd.of_cons
    have hdisj2 : ∀ x ∈ dNames es,
        x ∉ keys (processSubdir st (.dir name cs)).folderCounts := by
      intro x hx
      rw [g5]
      intro hmem
      rcases List.mem_append.mp hmem with hm | hm
      · exact hdisj x (List.mem_cons_of_mem name hx) hm
      · have : x = name := by simpa using hm
        exact (List.nodup_cons.mp hnd).1 (this ▸ hx)
    have ih := foldl_processSubdir es (processSubdir st (.dir name cs))
      g1 g2 g3 g4 hnd2 hdisj2
    obtain ⟨i1, i2, i3, i4, i5⟩ := ih
    refine ⟨i1, i2, i3, i4, ?_⟩
    rw [List.foldl_cons, i5, g5, List.append_assoc]
    rfl

theorem foldl_processFile_totals : ∀ (fs : List String) (s0 t0 : Nat)
    (e0 : List (String × Nat)),
    (fs.foldl processFile (s0, t0, e0)).2.1 + s0 =
      (fs.foldl processFile (s0, t0, e0)).1 + t0
  | [], s0, t0, e0 => by
    simp
    omega
  | n :: rest, s0, t0, e0 => by
    by_cases h : isMusic n
    · have ih := foldl_processFile_totals rest (s0 + 1) (t0 + 1) (dincr e0 (fileExt n))
      simp only [List.foldl_cons, processFile, if_pos h] at *
      omega
    · have ih := foldl_processFile_totals rest s0 t0 e0
      simp only [List.foldl_cons, processFile, if_neg h] at *
      omega

theorem foldl_total_cumulative : ∀ (ds : List FSEntry) (st : ScanState),
    st.total = st.cumulative →
    (ds.foldl processSubdir st).total = (ds.foldl processSubdir st).cumulative
  | [], st, h1 => h1
  | .file _ :: es, st, h1 => by
    simpa only [List.foldl_cons, processSubdir] using
      foldl_total_cumulative es st h1
  | .dir name cs :: es, st, h1 => by
    have ht := foldl_processFile_totals (walkFrom cs) 0 st.total st.extCounts
    have hst : (processSubdir st (.dir name cs)).total =
        (processSubdir st (.dir name cs)).cumulative := by
      show ((walkFrom cs).foldl processFile (0, st.total, st.extCounts)).2.1 =
        st.cumulative + ((walkFrom cs).foldl processFile (0, st.total, st.extCounts)).1
      omega
    simpa only [List.foldl_cons] using
      foldl_total_cumulative es (processSubdir st (.dir name cs)) hst

theorem foldl_processSubdir_extKeys : ∀ (ds : List FSEntry) (st : ScanState),
    keys st.extCounts = MUSIC_EXTENSIONS →
    keys (ds.foldl processSubdir st).extCounts = MUSIC_EXTENSIONS
  | [], _, h => h
  | .file _ :: es, st, h => by
    simpa only [List.foldl_cons, processSubdir] using
      foldl_processSubdir_extKeys es st h
  | .dir name cs :: es, st, h => by
    obtain ⟨_, _, _, hw4⟩ := foldl_processFile (walkFrom cs) 0 st.total st.extCounts h
    simpa only [List.foldl_cons] using
      foldl_processSubdir_extKeys es (processSubdir st (.dir name cs)) hw4

/-- Claim C1: for every scanned tree (with the filesystem-guaranteed
uniqueness of sibling directory names), the returned Total Count equals
the sum of the Folder Count Map values and the sum of the Extension Count
Map values. -/
theorem total_eq_sums (root : String) (children : List FSEntry)
    (h : (dNames children).Nodup) :
    (count_music_files root children).2.1 =
      valsSum (count_music_files root children).1 ∧
    (count_music_files root children).2.1 =
      valsSum (count_music_files root children).2.2 := by
  by_cases he : (topSubdirs children).isEmpty
  · obtain ⟨h1, h2, h3⟩ :=
      foldl_flatStep (directFileNames children) 0 initExtCounts keys_initExtCounts
    simp only [count_music_files, he, if_true]
    refine ⟨?_, ?_⟩
    · simp [valsSum]
    · rw [h2, valsSum_initExtCounts, h1]
  · have he2 : (topSubdirs children).isEmpty = false := by simpa using he
    have hnd : (dNames (topSubdirs children)).Nodup := by
      rw [dNames_topSubdirs]
      exact h
    obtain ⟨g1, g2, g3, g4, g5⟩ :=
      foldl_processSubdir (topSubdirs children) initState rfl rfl rfl rfl hnd
        (by intro x _ hx; simp [initState, keys] at hx)
    simp only [count_music_files, he2, Bool.false_eq_true, if_false]
    exact ⟨g1.trans g2.symm, g3.symm⟩

/-- Claim C1 witness at a concrete two-subdirectory tree. -/
theorem total_eq_sums_witness :
    (dNames [.dir "A" [.file "x.mp3", .dir "B" [.file "y.flac"]],
             .dir "C" [.file "z.txt"]]).Nodup ∧
    ((count_music_files "root"
        [.dir "A" [.file "x.mp3", .dir "B" [.file "y.flac"]],
         .dir "C" [.file "z.txt"]]).2.1 =
      valsSum (count_music_files "root"
        [.dir "A" [.file "x.mp3", .dir "B" [.file "y.flac"]],
         .dir "C" [.file "z.txt"]]).1 ∧
     (count_music_files "root"
        [.dir "A" [.file "x.mp3", .dir "B" [.file "y.flac"]],
         .dir "C" [.file "z.txt"]]).2.1 =
      valsSum (count_music_files "root"
        [.dir "A" [.file "x.mp3", .dir "B" [.file "y.flac"]],
         .dir "C" [.file "z.txt"]]).2.2) :=
  ⟨by decide,
   total_eq_sums "root"
     [.dir "A" [.file "x.mp3", .dir "B" [.file "y.flac"]],
      .dir "C" [.file "z.txt"]] (by decide)⟩

/-- Claim C5: when the root has no immediate subdirectory, the scan is the
non-recursive flat branch: the Folder Count Map has the single entry
`(basename, number of directly contained matching files)` and the Total
Count is that same number. -/
theorem flat_root_single_entry (root : String) (children : List FSEntry)
    (h : (topSubdirs children).isEmpty = true) :
    (count_music_files root children).1 =
      [(root, musicCount (directFileNames children))] ∧
    (count_music_files root children).2.1 =
      musicCount (directFileNames children) := by
  obtain ⟨h1, h2, h3⟩ :=
    foldl_flatStep (directFileNames children) 0 initExtCounts keys_initExtCounts
  simp only [count_music_files, h, if_true]
  rw [h1, Nat.zero_add]
  exact ⟨rfl, rfl⟩

/-- Claim C5 witness: a flat root with three matching files (one of them in
upper case) yields the single map entry `("Music", 3)` and Total Count 3. -/
theorem flat_root_single_entry_witness :
    (topSubdirs [.file "a.mp3", .file "b.FLAC", .file "c.ogg", .file "d.txt"]).isEmpty
      = true ∧
    (count_music_files "Music"
       [.file "a.mp3", .file "b.FLAC", .file "c.ogg", .file "d.txt"]).1 =
      [("Music", 3)] ∧
    (count_music_files "Music"
       [.file "a.mp3", .file "b.FLAC", .file "c.ogg", .file "d.txt"]).2.1 = 3 := by
  have h := flat_root_single_entry "Music"
    [.file "a.mp3", .file "b.FLAC", .file "c.ogg", .file "d.txt"] (by decide)
  have hm : musicCount (directFileNames
      [.file "a.mp3", .file "b.FLAC", .file "c.ogg", .file "d.txt"]) = 3 := by decide
  exact ⟨by decide, hm ▸ h.1, hm ▸ h.2⟩

/-- Claim C6: after any scan the key set of the Extension Count Map is
exactly the fixed catalog (unused extensions appear with value 0 by
pre-population), and a file whose extension is outside the catalog leaves
the whole per-file accumulator unchanged, so it is never counted and never
adds a key. -/
theorem extension_key_set_exact :
    (∀ (root : String) (children : List FSEntry),
      keys (count_music_files root children).2.2 = MUSIC_EXTENSIONS) ∧
    (∀ (acc : Nat × Nat × List (String × Nat)) (n : String),
      isMusic n = false → processFile acc n = acc) ∧
    isMusic "notes.txt" = false ∧ isMusic "cover.jpg" = false := by
  refine ⟨?_, ?_, by decide, by decide⟩
  · intro root children
    by_cases he : (topSubdirs children).isEmpty
    · obtain ⟨h1, h2, h3⟩ :=
        foldl_flatStep (directFileNames children) 0 initExtCounts keys_initExtCounts
      simp only [count_music_files, he, if_true]
      exact h3
    · have he2 : (topSubdirs children).isEmpty = false := by simpa using he
      simp only [count_music_files, he2, Bool.false_eq_true, if_false]
      exact foldl_processSubdir_extKeys (topSubdirs children) initState rfl
  · intro acc n hn
    simp [processFile, hn]

/-- Claim C6 witness: a `.txt` file leaves the accumulator untouched. -/
theorem extension_key_set_exact_witness :
    isMusic "readme.txt" = false ∧
    processFile (0, 0, initExtCounts) "readme.txt" = (0, 0, initExtCounts) :=
  ⟨by decide,
   extension_key_set_exact.2.1 (0, 0, initExtCounts) "readme.txt" (by decide)⟩

/-- Claim C10: in the branch with at least one immediate subdirectory, the
running cumulative count after the last subdirectory equals the Total Count
returned by `count_music_files`. -/
theorem cumulative_matches_total (root : String) (children : List FSEntry)
    (h : (topSubdirs children).isEmpty = false) :
    ((topSubdirs children).foldl processSubdir initState).cumulative =
      (count_music_files root children).2.1 := by
  simp only [count_music_files, h, Bool.false_eq_true, if_false]
  exact (foldl_total_cumulative (topSubdirs children) initState rfl).symm

/-- Claim C10 witness at a concrete tree with two subdirectories. -/
theorem cumulative_matches_total_witness :
    (topSubdirs [.dir "A" [.file "x.mp3"], .dir "B" [.file "y.wav"],
                 .file "n.txt"]).isEmpty = false ∧
    ((topSubdirs [.dir "A" [.file "x.mp3"], .dir "B" [.file "y.wav"],
                  .file "n.txt"]).foldl processSubdir initState).cumulative =
      (count_music_files "r"
        [.dir "A" [.file "x.mp3"], .dir "B" [.file "y.wav"],
         .file "n.txt"]).2.1 :=
  ⟨by decide,
   cumulative_matches_total "r"
     [.dir "A" [.file "x.mp3"], .dir "B" [.file "y.wav"], .file "n.txt"]
     (by decide)⟩

/-- Claim C2 counterexample: the catalog has twelve entries, not fourteen. -/
theorem catalog_not_fourteen :
    MUSIC_EXTENSIONS.length = 12 ∧ ¬ MUSIC_EXTENSIONS.length = 14 := by
  decide

/-- Claim C2 (amended): the fixed catalog has twelve entries, is exactly the
set listed in the specification, holds no duplicates, and every entry is
already lower-case (so the lower-cased comparison of `fileExt` matches it
case-insensitively). -/
theorem catalog_twelve_exact :
    MUSIC_EXTENSIONS.length = 12 ∧ MUSIC_EXTENSIONS.Nodup ∧
    MUSIC_EXTENSIONS = specCatalog ∧
    MUSIC_EXTENSIONS.all (fun e => strLower e == e) = true := by
  decide

/-- Python `/`: raises `ZeroDivisionError` when the divisor is zero. -/
def pyDiv (a b : ℚ) : Except String ℚ :=
  if b = 0 then Except.error "ZeroDivisionError" else Except.ok (a / b)

/-- Line 77: the incremental progress line is printed exactly when
`subdir_count % 100 == 0`. -/
def progressShown (count : Nat) : Bool := count % 100 == 0

/-- Line 79: the throughput printed on the progress line is
`subdir_count/elapsed`, with no guard on `elapsed`. -/
def progressRate (count : Nat) (elapsed : ℚ) : Except String ℚ :=
  pyDiv (count : ℚ) elapsed

/-- Line 83: `files_per_sec = subdir_count/elapsed if elapsed else 0` — the
per-subdirectory summary throughput, guarded by the truthiness of
`elapsed`. -/
def summaryRate (count : Nat) (elapsed : ℚ) : ℚ :=
  if elapsed ≠ 0 then (count : ℚ) / elapsed else 0

/-- Claim C3 counterexample: at the emission point (count 100, a multiple of
100) with elapsed time 0, the progress-branch division raises
`ZeroDivisionError` instead of reporting 0 — the division on line 79 is not
guarded. -/
theorem progress_division_unguarded :
    progressShown 100 = true ∧
    progressRate 100 0 = Except.error "ZeroDivisionError" := by
  constructor
  · decide
  · simp [progressRate, pyDiv]

/-- Claim C3 (amended): the progress line is emitted exactly when the
running count is a multiple of 100 and shows `count/elapsed`; that division
is unguarded and raises `ZeroDivisionError` when elapsed is 0.  Only the
per-subdirectory summary throughput (line 83) is guarded, reporting 0 when
elapsed is 0. -/
theorem progress_and_summary_rates :
    (∀ (c : Nat) (e : ℚ), e ≠ 0 → progressRate c e = Except.ok ((c : ℚ) / e)) ∧
    (∀ c : Nat, progressRate c 0 = Except.error "ZeroDivisionError") ∧
    (∀ c : Nat, summaryRate c 0 = 0) ∧
    (∀ (c : Nat) (e : ℚ), e ≠ 0 → summaryRate c e = (c : ℚ) / e) ∧
    (∀ c : Nat, progressShown c = true ↔ c % 100 = 0) := by
  refine ⟨?_, ?_, ?_, ?_, ?_⟩
  · intro c e he
    simp [progressRate, pyDiv, he]
  · intro c
    simp [progressRate, pyDiv]
  · intro c
    simp [summaryRate]
  · intro c e he
    simp [summaryRate, he]
  · intro c
    simp [progressShown]

/-- Claim C3 (amended) witness at count 100, elapsed 1. -/
theorem progress_and_summary_rates_witness :
    (1 : ℚ) ≠ 0 ∧ progressRate 100 1 = Except.ok ((100 : ℚ) / 1) ∧
    summaryRate 100 1 = (100 : ℚ) / 1 :=
  ⟨one_ne_zero, progress_and_summary_rates.1 100 1 one_ne_zero,
   progress_and_summary_rates.2.2.2.1 100 1 one_ne_zero⟩

/-- The classification rule exactly as the claim words it: "the substring
after the last `.` in the filename, lower-cased" — the suffix starting at
the last dot, with no side condition. -/
def claimedExt (name : String) : String :=
  match lastDotPos name.toList with
  | none => ""
  | some i => strLower (String.mk (name.toList.drop i))

/-- The classification rule amended with pathlib's side condition: the
suffix starting at the last dot, lower-cased, provided that dot is neither
the first nor the last character of the name; otherwise empty. -/
def amendedExt (name : String) : String :=
  match lastDotPos name.toList with
  | none => ""
  | some i =>
    if 0 < i ∧ i < name.toList.length - 1 then
      strLower (String.mk (name.toList.drop i))
    else ""

/-- Claim C4 counterexample: for a file named `.mp3` the claimed rule gives
`.mp3` (a catalog member, so it would be counted), but the code's
`Path.suffix`-based extension is empty and the file is not counted. -/
theorem suffix_rule_dotfile_counterexample :
    claimedExt ".mp3" = ".mp3" ∧ fileExt ".mp3" = "" ∧
    ¬ fileExt ".mp3" = claimedExt ".mp3" ∧
    isMusic ".mp3" = false ∧ claimedExt ".mp3" ∈ MUSIC_EXTENSIONS := by
  decide

/-- Claim C4 (amended): the classification extension is the lower-cased
substring from the last dot when that dot is internal to the filename, and
empty otherwise; classification is case-insensitive, so `Track.MP3` counts
toward `.mp3`. -/
theorem extension_classification :
    (∀ name : String, fileExt name = amendedExt name) ∧
    fileExt "Track.MP3" = ".mp3" ∧ isMusic "Track.MP3" = true ∧
    fileExt "track.mp3" = ".mp3" ∧ isMusic "track.mp3" = true := by
  refine ⟨?_, by decide, by decide, by decide, by decide⟩
  intro name
  cases h : lastDotPos name.toList with
  | none =>
    simp only [fileExt, pySuffix, amendedExt, h]
    rfl
  | some i =>
    simp only [fileExt, pySuffix, amendedExt, h]
    split_ifs with hc
    · rfl
    · rfl

/-- Comparison used by `sorted(..., key=lambda x: x[1], reverse=True)`
(lines 126 and 147): a row precedes another when its count is at least as
large. -/
def countDesc (a b : String × Nat) : Prop := b.2 ≤ a.2

instance : DecidableRel countDesc := fun a b => inferInstanceAs (Decidable (b.2 ≤ a.2))

instance : IsTotal (String × Nat) countDesc := ⟨fun a b => le_total b.2 a.2⟩

instance : IsTrans (String × Nat) countDesc := ⟨fun _ _ _ h1 h2 => le_trans h2 h1⟩

/-- Lexicographic comparison of character lists by code point — the order
Python's `sorted` uses on strings. -/
def lexLe : List Char → List Char → Bool
  | [], _ => true
  | _ :: _, [] => false
  | a :: as, b :: bs =>
    if a.toNat = b.toNat then lexLe as bs else decide (a.toNat < b.toNat)

/-- Python string `<=` on whole strings, as a relation for sorting. -/
def alphaLe (s t : String) : Prop := lexLe s.toList t.toList = true

instance : DecidableRel alphaLe :=
  fun s t => inferInstanceAs (Decidable (lexLe s.toList t.toList = true))

theorem lexLe_total : ∀ (as bs : List Char),
    lexLe as bs = true ∨ lexLe bs as = true
  | [], _ => Or.inl rfl
  | _ :: _, [] => Or.inr rfl
  | a :: as, b :: bs => by
    by_cases h : a.toNat = b.toNat
    · rcases lexLe_total as bs with h1 | h1
      · exact Or.inl (by simp [lexLe, h, h1])
      · exact Or.inr (by simp [lexLe, h.symm, h1])
    · rcases Nat.lt_or_ge a.toNat b.toNat with hlt | hge
      · exact Or.inl (by simp [lexLe, h, hlt])
      · have hba : b.toNat < a.toNat :=
          lt_of_le_of_ne hge (fun he => h he.symm)
        have h2 : ¬ b.toNat = a.toNat := fun he => h he.symm
        exact Or.inr (by simp [lexLe, h2, hba])

theorem lexLe_trans : ∀ (as bs cs : List Char),
    lexLe as bs = true → lexLe bs cs = true → lexLe as cs = true
  | [], _, _, _, _ => rfl
  | _ :: _, [], _, h1, _ => by simp [lexLe] at h1
  | _ :: _, _ :: _, [], _, h2 => by simp [lexLe] at h2
  | a :: as, b :: bs, c :: cs, h1, h2 => by
    by_cases hab : a.toNat = b.toNat
    · by_cases hbc : b.toNat = c.toNat
      · simp only [lexLe, if_pos hab] at h1
        simp only [lexLe, if_pos hbc] at h2
        simp [lexLe, hab.trans hbc, lexLe_trans as bs cs h1 h2]
      · simp only [lexLe, if_neg hbc, decide_eq_true_eq] at h2
        have hac : a.toNat < c.toNat := hab ▸ h2
        simp [lexLe, Nat.ne_of_lt hac, hac]
    · simp only [lexLe, if_neg hab, decide_eq_true_eq] at h1
      by_cases hbc : b.toNat = c.toNat
      · have hac : a.toNat < c.toNat := hbc ▸ h1
        simp [lexLe, Nat.ne_of_lt hac, hac]
      · simp only [lexLe, if_neg hbc, decide_eq_true_eq] at h2
        have hac : a.toNat < c.toNat := lt_trans h1 h2
        simp [lexLe, Nat.ne_of_lt hac, hac]

instance : IsTotal String alphaLe := ⟨fun s t => lexLe_total s.toList t.toList⟩

instance : IsTrans String alphaLe :=
  ⟨fun s t u h1 h2 => lexLe_trans s.toList t.toList u.toList h1 h2⟩

/-- Line 126: Table 1 rows, folder counts sorted descending by count. -/
def sortedFolderRows (fc : List (String × Nat)) : List (String × Nat) :=
  fc.insertionSort countDesc

/-- Lines 143 and 147: the non-zero extension rows, sorted descending by
count. -/
def nonZeroSorted (ec : List (String × Nat)) : List (String × Nat) :=
  (ec.filter (fun p => decide (0 < p.2))).insertionSort countDesc

/-- Lines 144 and 152: the zero-count extension names, sorted
alphabetically. -/
def zeroNamesSorted (ec : List (String × Nat)) : List String :=
  ((ec.filter (fun p => decide (p.2 = 0))).map Prod.fst).insertionSort alphaLe

/-- Lines 142-153: the full row list of Table 2 — non-zero rows first, then
the zero rows (printed with a literal count 0). -/
def table2Rows (ec : List (String × Nat)) : List (String × Nat) :=
  nonZeroSorted ec ++ (zeroNamesSorted ec).map (fun n => (n, 0))

/-- The extension counts of the claim's example:
`{.mp3: 10, .flac: 3, rest 0}` over the fixed catalog. -/
def exampleExtCounts : List (String × Nat) :=
  MUSIC_EXTENSIONS.map
    (fun e => (e, if e = ".mp3" then 10 else if e = ".flac" then 3 else 0))

/-- Claim C7: Table 2 lists the non-zero extensions first, sorted descending
by count, then the zero-count extensions sorted alphabetically; on the
example counts `{.mp3: 10, .flac: 3, rest 0}` the rows are `.mp3`, `.flac`,
then the ten remaining extensions in alphabetical order. -/
theorem table2_ordering :
    (∀ ec : List (String × Nat),
      List.Sorted countDesc (nonZeroSorted ec) ∧
      List.Sorted alphaLe (zeroNamesSorted ec) ∧
      (nonZeroSorted ec).Perm (ec.filter (fun p => decide (0 < p.2))) ∧
      (zeroNamesSorted ec).Perm
        ((ec.filter (fun p => decide (p.2 = 0))).map Prod.fst) ∧
      (∀ p ∈ nonZeroSorted ec, 0 < p.2)) ∧
    table2Rows exampleExtCounts =
      [(".mp3", 10), (".flac", 3),
       (".aac", 0), (".aif", 0), (".aiff", 0), (".ape", 0), (".dff", 0),
       (".dsf", 0), (".m4a", 0), (".oga", 0), (".ogg", 0), (".wav", 0)] := by
  refine ⟨?_, by decide⟩
  intro ec
  refine ⟨List.sorted_insertionSort _ _, List.sorted_insertionSort _ _,
    List.perm_insertionSort _ _, List.perm_insertionSort _ _, ?_⟩
  intro p hp
  rw [nonZeroSorted, List.mem_insertionSort] at hp
  exact of_decide_eq_true (List.mem_filter.mp hp).2

/-- Claim C7 witness: the hypothesis-bearing conjunct applied to the example
counts at the row `(".mp3", 10)`. -/
theorem table2_ordering_witness :
    (".mp3", (10 : Nat)) ∈ nonZeroSorted exampleExtCounts ∧
    0 < ((".mp3", (10 : Nat))).2 := by
  have hm : (".mp3", (10 : Nat)) ∈ nonZeroSorted exampleExtCounts := by decide
  exact ⟨hm, (table2_ordering.1 exampleExtCounts).2.2.2.2 (".mp3", 10) hm⟩

/-- Lines 127, 148: `percentage = (count / total_count) * 100 if
total_count > 0 else 0`. -/
def rowPct (count total : Nat) : Except String ℚ :=
  if 0 < total then (pyDiv (count : ℚ) (total : ℚ)).map (fun q => q * 100)
  else Except.ok 0

/-- The percentages printed for Table 1 (lines 126-128), one per sorted
folder row. -/
def table1Pcts (fc : List (String × Nat)) (total : Nat) : List (Except String ℚ) :=
  (sortedFolderRows fc).map (fun p => rowPct p.2 total)

/-- The percentages printed for Table 2 (lines 147-153): computed for the
non-zero rows, a literal `0.00` for the zero rows. -/
def table2Pcts (ec : List (String × Nat)) (total : Nat) : List (Except String ℚ) :=
  (nonZeroSorted ec).map (fun p => rowPct p.2 total) ++
  (zeroNamesSorted ec).map (fun _ => Except.ok 0)

/-- Claim C8: when Total Count is 0 every percentage printed in either table
is 0, and the percentage computation never raises a division error for any
count and total. -/
theorem zero_total_percentages :
    (∀ fc : List (String × Nat), ∀ x ∈ table1Pcts fc 0, x = Except.ok 0) ∧
    (∀ ec : List (String × Nat), ∀ x ∈ table2Pcts ec 0, x = Except.ok 0) ∧
    (∀ c t : Nat, ∃ q : ℚ, rowPct c t = Except.ok q) := by
  have hz : ∀ c : Nat, rowPct c 0 = Except.ok 0 := fun c => by simp [rowPct]
  refine ⟨?_, ?_, ?_⟩
  · intro fc x hx
    simp only [table1Pcts, List.mem_map] at hx
    obtain ⟨p, _, rfl⟩ := hx
    exact hz p.2
  · intro ec x hx
    simp only [table2Pcts, List.mem_append, List.mem_map] at hx
    rcases hx with ⟨p, _, rfl⟩ | ⟨n, _, rfl⟩
    · exact hz p.2
    · rfl
  · intro c t
    by_cases ht : 0 < t
    · have hne : (t : ℚ) ≠ 0 := Nat.cast_ne_zero.mpr ht.ne'
      exact ⟨(c : ℚ) / (t : ℚ) * 100, by simp [rowPct, pyDiv, ht, hne, Except.map]⟩
    · exact ⟨0, by simp [rowPct, ht]⟩

/-- Claim C8 witness: the single Table 1 row of a one-folder map, at Total
Count 0. -/
theorem zero_total_percentages_witness :
    rowPct 5 0 ∈ table1Pcts [("A", 5)] 0 ∧ rowPct 5 0 = Except.ok 0 := by
  have hm : rowPct 5 0 ∈ table1Pcts [("A", 5)] 0 := List.mem_singleton.mpr rfl
  exact ⟨hm, zero_total_percentages.1 [("A", 5)] (rowPct 5 0) hm⟩

/-- `main` (lines 93-113), up to the scan: the path either fails the
`os.path.isdir` check — an error message and `sys.exit(1)` before any
traversal — or names a directory, in which case the scan runs and the
process later exits normally (status 0).  The filesystem lookup is modelled
as `none` (missing or not a directory, including a regular file) versus
`some (basename, children)`.  The second component records the scan result,
`none` when no traversal was attempted. -/
def runMain (fs : Option (String × List FSEntry)) :
    Nat × Option (List (String × Nat) × Nat × List (String × Nat)) :=
  match fs with
  | none => (1, none)
  | some (name, children) => (0, some (count_music_files name children))

/-- Claim C9: a path that is missing or not a directory exits with a
non-zero status and no traversal is attempted; a valid directory path runs
the scan and exits with status zero. -/
theorem invalid_path_exits_nonzero :
    (∀ fs : Option (String × List FSEntry), fs = none →
      (runMain fs).1 ≠ 0 ∧ (runMain fs).2 = none) ∧
    (∀ (fs : Option (String × List FSEntry)) (name : String)
      (children : List FSEntry), fs = some (name, children) →
      (runMain fs).1 = 0 ∧
      (runMain fs).2 = some (count_music_files name children)) := by
  constructor
  · rintro fs rfl
    exact ⟨by decide, rfl⟩
  · rintro fs name children rfl
    exact ⟨rfl, rfl⟩

/-- Claim C9 witness: both branches at concrete inputs — an invalid path,
and a directory containing one music file. -/
theorem invalid_path_exits_nonzero_witness :
    ((runMain none).1 ≠ 0 ∧ (runMain none).2 = none) ∧
    ((runMain (some ("root", [FSEntry.file "a.mp3"]))).1 = 0 ∧
     (runMain (some ("root", [FSEntry.file "a.mp3"]))).2 =
       some (count_music_files "root" [FSEntry.file "a.mp3"])) :=
  ⟨invalid_path_exits_nonzero.1 none rfl,
   invalid_path_exits_nonzero.2 (some ("root", [FSEntry.file "a.mp3"]))
     "root" [FSEntry.file "a.mp3"] rfl⟩

end FindMusicFiles
